import Mathlib

/-
Shallow embedding of the PinSync repository (Container.py, Image.py,
Manifest.py, Pin.py, Client.py, PinSync.py) used to settle the claims about
its reconciliation and deduplication engine.

Modelling conventions:
  * Python strings are Lean `String`s; where Python compares strings
    (sorting image ids), we compare the underlying character lists
    `String.data` with the lexicographic order, which is exactly Python's
    string comparison (by code point).
  * Filesystem paths are lists of path components (Python `os.sep`-separated
    parts); `os.path.split p = (p.dropLast, p.getLast)`.
  * Decoded image data (cv2.imread + dhash + shape + mean) is a black box:
    a `Decoded` record carrying the perceptual hash, the dimensions and the
    mean color.  Channel means are abstracted as natural numbers, since the
    code never computes with them.
  * Python exceptions are `Except`/`Option` results.
-/

namespace PinSync

/-- Decoded content of an image file: the perceptual hash `dhash(image)`,
the dimensions from `image.shape` and the mean color.  Stands for the
output of the external image-decoding collaborator (cv2). -/
structure Decoded where
  hash : Nat
  height : Nat
  width : Nat
  color : Nat × Nat × Nat
deriving DecidableEq

/-- Python `str.split('.')` on the character list of a filename
(Image.py line 34: `components[-1].split('.')`). -/
def pySplitDot : List Char → List (List Char)
  | [] => [[]]
  | c :: rest =>
      match pySplitDot rest with
      | [] => [[]]
      | p :: ps => if c = '.' then [] :: p :: ps else (c :: p) :: ps

/-- Image.py line 34: `''.join(components[-1].split('.')[:-1])` — the id of a
scanned local image: the filename pieces between the dots, all but the last,
concatenated without separators. -/
def scan_image_id (filename : List Char) : List Char :=
  ((pySplitDot filename).dropLast).flatten

/-- Everything strictly before the last `'.'` of the list; `[]` when there is
no dot.  Helper for `orphan_image_id`. -/
def beforeLastDot : List Char → List Char
  | [] => []
  | c :: rest => if '.' ∈ rest then c :: beforeLastDot rest else []

/-- Container.py line 249 (and 312): `id = file[:file.rfind('.')]` — the id
the orphan-cleanup path parses out of a non-image filename.  Python slice
semantics: when the filename contains a dot, everything before the last dot;
when it does not, `rfind` returns `-1` and `file[:-1]` drops the last
character. -/
def orphan_image_id (filename : List Char) : List Char :=
  if '.' ∈ filename then beforeLastDot filename else filename.dropLast

/-- A local image record (class Image, Image.py lines 26-43).  `path` is the
file path split on `os.sep`; `board`, `sect` and `id` are the derived fields
(`sect` stands for the source's `section` attribute, which is a Lean
keyword); `hash`, `height`, `width`, `size` and `color` come from the
decoded file. -/
structure Image where
  path : List String
  board : String
  sect : String
  id : String
  hash : Nat
  height : Nat
  width : Nat
  size : Nat
  color : Nat × Nat × Nat
deriving DecidableEq

/-- Image.__init__ (Image.py lines 26-43): `components = path.split(os.sep)`,
`board = components[0]`, `section = components[1]`,
`id = ''.join(components[-1].split('.')[:-1])`, then the decoded fields with
`size = height * width`.  A path with fewer than two components makes
`components[1]` raise an IndexError, modelled as `none`. -/
def Image.ofFile (components : List String) (d : Decoded) : Option Image :=
  match components with
  | b :: s :: rest =>
      some { path := components
             board := b
             sect := s
             id := String.mk (scan_image_id ((s :: rest).getLast (by simp)).data)
             hash := d.hash
             height := d.height
             width := d.width
             size := d.height * d.width
             color := d.color }
  | _ => none

/-- A JSON value, for the manifest file format. -/
inductive Json where
  | null
  | num (n : Int)
  | str (s : String)
  | arr (elems : List Json)
  | obj (fields : List (String × Json))

/-- Whether a JSON value is an object. -/
def Json.isObj : Json → Bool
  | .obj _ => true
  | _ => false

/-- Whether a JSON value is an array. -/
def Json.isArr : Json → Bool
  | .arr _ => true
  | _ => false

/-- Field lookup in a JSON object (`j['key']`); `none` on non-objects and
missing keys. -/
def Json.getField (j : Json) (key : String) : Option Json :=
  match j with
  | .obj fields => (fields.find? (fun kv => kv.1 == key)).map (·.2)
  | _ => none

/-- `os.sep.join` of path components, to serialize `self.path`. -/
def pathString (components : List String) : String :=
  String.intercalate "/" components

/-- Image.to_json (Image.py lines 45-60): the per-image manifest entry. -/
def Image.to_json (im : Image) : Json :=
  .obj [ ("id", .str im.id)
       , ("board", .str im.board)
       , ("section", .str im.sect)
       , ("path", .str (pathString im.path))
       , ("hash", .num im.hash)
       , ("height", .num im.height)
       , ("width", .num im.width)
       , ("size", .num im.size)
       , ("color", .arr [.num im.color.1, .num im.color.2.1, .num im.color.2.2]) ]

/-- Python's string `<=` on image ids: lexicographic comparison of the
character lists.  `sorted(images, key=lambda im: im.id)` orders by this. -/
def imageIdLe (a b : Image) : Prop := a.id.data ≤ b.id.data

instance : DecidableRel imageIdLe :=
  fun a b => inferInstanceAs (Decidable (a.id.data ≤ b.id.data))

instance : IsTotal Image imageIdLe := ⟨fun a b => le_total a.id.data b.id.data⟩

instance : IsTrans Image imageIdLe := ⟨fun _ _ _ h h' => le_trans h h'⟩

/-- `sorted(images, key=lambda im: im.id)` (Container.py line 174). -/
def sortById (l : List Image) : List Image := List.insertionSort imageIdLe l

/-- The scan underlying Python `max(x :: xs, key=key)`: start from `x` and
replace the current best only when the new key is strictly greater. -/
def pyfoldmax (key : Image → Nat) (x : Image) (xs : List Image) : Image :=
  xs.foldl (fun best y => if key best < key y then y else best) x

/-- Python `max(items, key=key)`: scans left to right keeping the current
best unless the new key is strictly greater, hence returns the first item
attaining the maximal key; raises (here: `none`) on an empty list. -/
def pymax (key : Image → Nat) : List Image → Option Image
  | [] => none
  | x :: xs => some (pyfoldmax key x xs)

/-- Container.py lines 174-175 (and Manifest.py lines 223-224): the keeper of
a duplicate group — `images = sorted(images, key=lambda im: im.id)` followed
by `choice = max(images, key=lambda im: im.size)`. -/
def choose_keeper (group : List Image) : Option Image :=
  pymax Image.size (sortById group)

/-- Container.py lines 174-179: the images removed from one duplicate group —
every member of the sorted group whose id differs from the keeper's. -/
def resolve_group (group : List Image) : List Image :=
  match choose_keeper group with
  | none => []
  | some choice => (sortById group).filter (fun im => im.id != choice.id)

/-- One step of the hash-bucket construction of Container.duplicate_images
(Container.py lines 153-157): insert `im` into the ordered association list
`groups`, creating a new bucket at the end on a fresh hash (Python dict
insertion order). -/
def pyGroupInsert (groups : List (Nat × List Image)) (im : Image) :
    List (Nat × List Image) :=
  if groups.any (fun g => g.1 == im.hash) then
    groups.map (fun g => if g.1 == im.hash then (g.1, g.2 ++ [im]) else g)
  else
    groups ++ [(im.hash, [im])]

/-- Container.duplicate_images (Container.py lines 147-162): bucket the scan
by exact hash equality and keep the buckets with more than one member. -/
def duplicate_images (images : List Image) : List (Nat × List Image) :=
  (images.foldl pyGroupInsert []).filter (fun g => 1 < g.2.length)

/-- Container.remove_duplicates (Container.py lines 164-180), as the list of
removed images: the concatenation over the duplicate buckets of each
bucket's non-keepers. -/
def remove_duplicates (images : List Image) : List Image :=
  (duplicate_images images).foldl (fun removed g => removed ++ resolve_group g.2) []

/-- Container.manually_deleted (Container.py lines 113-124): the ids that
appear in the loaded manifest snapshot `old` but not among the ids of the
current scan `images`, in snapshot order. -/
def manually_deleted (old : List Image) (images : List Image) : List String :=
  let ids := images.map (·.id)
  (old.filter (fun e => !(ids.contains e.id))).map (·.id)

/-- The three states a container's `manifest.json` can be in when a sync
starts: absent, present but not valid JSON, or present and parsed into a
list of entries. -/
inductive ManifestFileState where
  | missing
  | corrupt
  | wellFormed (entries : List Image)
deriving DecidableEq

/-- Manifest loading in Board.__init__ (Container.py lines 252-261, and
Section.__init__ lines 315-324): `json.load` is wrapped in try/except, so a
missing file and a parse failure both leave `self.old = []`; no exception
escapes. -/
def board_load_old : ManifestFileState → List Image
  | .missing => []
  | .corrupt => []
  | .wellFormed entries => entries

/-- Manifest loading in Manifest.__init__ (Manifest.py lines 106-112):
`self.old = json.load(f)` has no try/except, so a parse failure propagates
(`Except.error`); only a missing file yields the empty snapshot. -/
def manifest_load_old : ManifestFileState → Except String (List Image)
  | .missing => Except.ok []
  | .corrupt => Except.error "json.decoder.JSONDecodeError"
  | .wellFormed entries => Except.ok entries

/-- Container.save_manifest (Container.py lines 182-193): build the Python
list `[image.to_json() for image in self.images]` and `json.dump` it — the
persisted value is a JSON array of per-image objects. -/
def save_manifest (images : List Image) : Json :=
  .arr (images.map Image.to_json)

/-- Reading the persisted manifest value back as Board.__init__ does
(`self.old = json.load(f)` iterated as a list of entries): the element list
of a JSON array, `none` for any other JSON value. -/
def load_manifest : Json → Option (List Json)
  | .arr elems => some elems
  | _ => none

/-- A fragment of the local filesystem: the existing files and directories,
each named by its path components. -/
structure FS where
  files : List (List String)
  dirs : List (List String)
deriving DecidableEq

/-- `os.listdir` restricted to what the cascade inspects: the files and
(non-root) directories whose parent is `d`. -/
def listdir (fs : FS) (d : List String) : List (List String) :=
  fs.files.filter (fun f => f.dropLast == d) ++
    fs.dirs.filter (fun x => !x.isEmpty && x.dropLast == d)

/-- The empty-directory cascade of Container.delete_image (Container.py
lines 67-71) and Image.delete (Manifest.py lines 64-68):
`while len(os.listdir(head)) == 0: os.rmdir(head); head = split(head)[0]`.
Walking past the top yields `head = ''` and `os.listdir('')` raises
FileNotFoundError, modelled as `none`. -/
def rmdir_cascade (fs : FS) : List String → Option FS
  | [] => none
  | c :: rest =>
      if (listdir fs (c :: rest)).isEmpty then
        rmdir_cascade { fs with dirs := fs.dirs.erase (c :: rest) } (c :: rest).dropLast
      else
        some fs
termination_by d => d.length
decreasing_by simp only [List.length_dropLast, List.length_cons]; omega

/-- The filesystem effect of Container.delete_image (Container.py lines
64-71) once the image is found: `os.remove(image.path)` followed by the
empty-parent cascade starting at the file's directory. -/
def delete_image_fs (fs : FS) (path : List String) : Option FS :=
  rmdir_cascade { fs with files := fs.files.erase path } path.dropLast

/-- Outcome of the network transfer inside Pin.download (Pin.py lines
43-48): a 200 response fully written, a non-200 response (nothing written),
or a KeyboardInterrupt in the middle of the chunk loop, at which point a
truncated file sits at the destination path. -/
inductive NetResult where
  | ok (d : Decoded)
  | httpError
  | interruptedMidWrite
deriving DecidableEq

/-- The exceptions Pin.download can raise: the re-raised KeyboardInterrupt
(Pin.py lines 49-51), or the `Image not found` error from building
`Image(self.image_path)` when no file was written (Image.py lines 27-28). -/
inductive DownloadError where
  | keyboardInterrupt
  | imageNotFound
deriving DecidableEq

/-- Pin.download (Pin.py lines 34-53): ensure the download directory exists
(`os.makedirs`), write the payload to `download_dir/<id><extension>`; on a
KeyboardInterrupt mid-write, `os.remove` the truncated file and re-raise.
Returns the updated filesystem and either success or the escaping
exception. -/
def pin_download (fs : FS) (dldir : List String) (pinId ext : String)
    (net : NetResult) : FS × Except DownloadError Unit :=
  let fs0 := if fs.dirs.contains dldir then fs else { fs with dirs := fs.dirs ++ [dldir] }
  let path := dldir ++ [pinId ++ ext]
  match net with
  | .ok _ => ({ fs0 with files := fs0.files ++ [path] }, .ok ())
  | .httpError => (fs0, .error .imageNotFound)
  | .interruptedMidWrite =>
      let written := { fs0 with files := fs0.files ++ [path] }
      ({ written with files := written.files.erase path }, .error .keyboardInterrupt)

/-- A pin on Pinterest (class Pin, Pin.py lines 14-32), reduced to what the
sync algorithm consumes: its id, and the local image record that scanning
the file produced by `pin.download()` yields. -/
structure Pin where
  id : String
  image : Image
deriving DecidableEq

/-- Side-effect counters for one sync pass. -/
structure Effects where
  downloads : Nat
  localDeletes : Nat
  remoteDeletes : Nat
deriving DecidableEq

/-- The state Container.sync runs over: the in-memory `self.pins` and
`self.images` lists, the loaded snapshot `self.old`, plus the actual remote
collection and the actual files on disk, with effect counters. -/
structure SyncState where
  pins : List Pin
  images : List Image
  old : List Image
  remote : List Pin
  disk : List Image
  eff : Effects
deriving DecidableEq

/-- Container.delete_pin (Container.py lines 51-58): if some `p` in
`self.pins` has the id, delete it on Pinterest and pop it from the list;
otherwise do nothing. -/
def sdelete_pin (s : SyncState) (pid : String) : SyncState :=
  if s.pins.any (fun p => p.id == pid) then
    { s with pins := s.pins.eraseP (fun p => p.id == pid)
             remote := s.remote.eraseP (fun p => p.id == pid)
             eff := { s.eff with remoteDeletes := s.eff.remoteDeletes + 1 } }
  else s

/-- Container.delete_image (Container.py lines 60-74): if some image in
`self.images` has the id, remove its file (`os.remove`) and pop it from the
list; otherwise do nothing.  The empty-directory cascade is modelled
separately (`delete_image_fs`); here only the file-level deletion matters. -/
def sdelete_image (s : SyncState) (iid : String) : SyncState :=
  if s.images.any (fun im => im.id == iid) then
    { s with images := s.images.eraseP (fun im => im.id == iid)
             disk := s.disk.eraseP (fun im => im.id == iid)
             eff := { s.eff with localDeletes := s.eff.localDeletes + 1 } }
  else s

/-- `pin.download()` as called from Container.sync (line 104): the payload is
materialized on disk, but the returned Image is discarded — `self.images` is
not updated. -/
def sdownload (s : SyncState) (p : Pin) : SyncState :=
  { s with disk := s.disk ++ [p.image]
           eff := { s.eff with downloads := s.eff.downloads + 1 } }

/-- Container.push_local_changes (Container.py lines 126-145): when the
manifest diff is non-empty, prompt the user; on an affirmative `answer`
delete each manually-deleted id from Pinterest, on a negative answer do
nothing. -/
def push_local_changes (s : SyncState) (answer : Bool) : SyncState :=
  let deleted := manually_deleted s.old s.images
  if 0 < deleted.length then
    if answer then deleted.foldl sdelete_pin s else s
  else s

/-- Container.sync (Container.py lines 93-111), phase by phase:
1. push manual deletions (with the user's `answer` to the prompt);
2. compute `get_differences` once, delete local images absent from
   Pinterest, download pins absent from disk;
3. `remove_duplicates` — the buckets are built from `self.images` as it
   stands after phase 2 (the downloads of phase 2 never entered
   `self.images`), each non-keeper is deleted locally, then each removed id
   is deleted from Pinterest;
4. save_manifest — persists the in-memory `self.images`. -/
def container_sync (s0 : SyncState) (answer : Bool) : SyncState × List Image :=
  let s1 := push_local_changes s0 answer
  let image_ids := s1.images.map (·.id)
  let pin_ids := s1.pins.map (·.id)
  let not_on_disk := s1.pins.filter (fun p => !(image_ids.contains p.id))
  let not_on_cloud := s1.images.filter (fun im => !(pin_ids.contains im.id))
  let s2 := (not_on_cloud.map (·.id)).foldl sdelete_image s1
  let s3 := not_on_disk.foldl sdownload s2
  let removed := remove_duplicates s3.images
  let s4 := (removed.map (·.id)).foldl sdelete_image s3
  let s5 := (removed.map (·.id)).foldl sdelete_pin s4
  (s5, s5.images)

/-- The durable state of one container between syncs: the remote collection,
the files on disk, and the persisted manifest snapshot. -/
structure World where
  remote : List Pin
  disk : List Image
  manifest : List Image
deriving DecidableEq

/-- One full reconciliation pass over a container: construct the container
(remote listing into `self.pins`, fresh disk scan into `self.images`,
manifest load into `self.old`, as Board.__init__ does), run Container.sync,
and return the resulting durable state together with the effect counters. -/
def run_sync (w : World) (answer : Bool) : World × Effects :=
  let s0 : SyncState :=
    { pins := w.remote, images := w.disk, old := w.manifest,
      remote := w.remote, disk := w.disk, eff := ⟨0, 0, 0⟩ }
  let (s, newManifest) := container_sync s0 answer
  ({ remote := s.remote, disk := s.disk, manifest := newManifest }, s.eff)

/-- Concrete local image `A`: board-level file `board1/a.jpg`, hash 5,
100×100 — the tie scenario of the testable-properties list. -/
def imgA : Image :=
  { path := ["board1", "a.jpg"], board := "board1", sect := "a.jpg", id := "a",
    hash := 5, height := 100, width := 100, size := 10000, color := (1, 2, 3) }

/-- Concrete local image `B`: board-level file `board1/b.jpg`, hash 5,
200×50 — same pixel count as `A`, larger id. -/
def imgB : Image :=
  { path := ["board1", "b.jpg"], board := "board1", sect := "b.jpg", id := "b",
    hash := 5, height := 200, width := 50, size := 10000, color := (4, 5, 6) }

/-- The pin whose download produces `imgA`. -/
def pinA : Pin := { id := "a", image := imgA }

/-- The pin whose download produces `imgB`. -/
def pinB : Pin := { id := "b", image := imgB }

/-- Initial durable state for the idempotence scenario: Pinterest holds `A`
and `B` (whose contents collide on hash 5), disk holds only `A`, and no
manifest has been written yet. -/
def worldAB : World := { remote := [pinA, pinB], disk := [imgA], manifest := [] }

/-- A section container with one image at `b/s/f.jpg`; the board directory
also holds `b/manifest.json`, so the cascade stops at `b`. -/
def fsSec : FS :=
  { files := [["b", "s", "f.jpg"], ["b", "manifest.json"]],
    dirs := [["b"], ["b", "s"]] }

/-- What remains of `fsSec` after deleting `b/s/f.jpg`: the file is gone and
so is the container's own directory `b/s`. -/
def fsAfterDel : FS := { files := [["b", "manifest.json"]], dirs := [["b"]] }

/-- On a list whose ids are strictly increasing, the Python-`max` scan
returns a member whose key is maximal, and among the key-maximal members
the one with the smallest id (the scan keeps the earliest maximum, and the
list is ordered by id). -/
theorem pyfoldmax_spec (key : Image → Nat) :
    ∀ (xs : List Image) (x : Image),
      (x :: xs).Pairwise (fun a b => a.id.data < b.id.data) →
      pyfoldmax key x xs ∈ x :: xs ∧
        (∀ y ∈ x :: xs, key y ≤ key (pyfoldmax key x xs)) ∧
        (∀ y ∈ x :: xs, key y = key (pyfoldmax key x xs) →
          (pyfoldmax key x xs).id.data ≤ y.id.data) := by
  intro xs
  induction xs with
  | nil =>
      intro x _
      simp [pyfoldmax]
  | cons y ys ih =>
      intro x hp
      rcases List.pairwise_cons.mp hp with ⟨hx, hyys⟩
      have hstep : pyfoldmax key x (y :: ys) =
          pyfoldmax key (if key x < key y then y else x) ys := rfl
      by_cases hk : key x < key y
      · rw [hstep, if_pos hk]
        rcases ih y hyys with ⟨hm, hmax, htie⟩
        refine ⟨List.mem_cons_of_mem x hm, ?_, ?_⟩
        · intro z hz
          rcases List.mem_cons.mp hz with hzx | hz'
          · subst hzx
            exact le_of_lt (lt_of_lt_of_le hk (hmax y (List.mem_cons_self y ys)))
          · exact hmax z hz'
        · intro z hz hkey
          rcases List.mem_cons.mp hz with hzx | hz'
          · subst hzx
            exact absurd hkey
              (ne_of_lt (lt_of_lt_of_le hk (hmax y (List.mem_cons_self y ys))))
          · exact htie z hz' hkey
      · rw [hstep, if_neg hk]
        have hxys : (x :: ys).Pairwise (fun a b => a.id.data < b.id.data) :=
          List.pairwise_cons.mpr
            ⟨fun b hb => hx b (List.mem_cons_of_mem y hb),
             (List.pairwise_cons.mp hyys).2⟩
        rcases ih x hxys with ⟨hm, hmax, htie⟩
        have hxr : key x ≤ key (pyfoldmax key x ys) := hmax x (List.mem_cons_self x ys)
        refine ⟨?_, ?_, ?_⟩
        · rcases List.mem_cons.mp hm with h | h
          · rw [h]; exact List.mem_cons_self x (y :: ys)
          · exact List.mem_cons_of_mem x (List.mem_cons_of_mem y h)
        · intro z hz
          rcases List.mem_cons.mp hz with hzx | hz'
          · rw [hzx]; exact hxr
          · rcases List.mem_cons.mp hz' with hzy | hz''
            · rw [hzy]; exact le_trans (not_lt.mp hk) hxr
            · exact hmax z (List.mem_cons_of_mem x hz'')
        · intro z hz hkey
          rcases List.mem_cons.mp hz with hzx | hz'
          · subst hzx
            exact htie z (List.mem_cons_self z ys) hkey
          · rcases List.mem_cons.mp hz' with hzy | hz''
            · subst hzy
              have h1 : key (pyfoldmax key x ys) ≤ key x := by
                rw [← hkey]; exact not_lt.mp hk
              have hkxr : key x = key (pyfoldmax key x ys) := le_antisymm hxr h1
              have hrx : (pyfoldmax key x ys).id.data ≤ x.id.data :=
                htie x (List.mem_cons_self x ys) hkxr
              rcases List.mem_cons.mp hm with hr | hr
              · rw [hr]
                exact le_of_lt (hx z (List.mem_cons_self z ys))
              · exact absurd (hx _ (List.mem_cons_of_mem z hr)) (not_lt.mpr hrx)
            · exact htie z (List.mem_cons_of_mem x hz'') hkey

/-- The sorted scan list is a permutation of the scan. -/
theorem sortById_perm (l : List Image) : (sortById l).Perm l :=
  List.perm_insertionSort imageIdLe l

/-- When the scan's ids are pairwise distinct, the sorted scan has strictly
increasing ids. -/
theorem sortById_strict (l : List Image)
    (hids : l.Pairwise (fun a b => a.id ≠ b.id)) :
    (sortById l).Pairwise (fun a b => a.id.data < b.id.data) := by
  have hs : List.Sorted imageIdLe (sortById l) :=
    List.sorted_insertionSort imageIdLe l
  have hne : (sortById l).Pairwise (fun a b => a.id ≠ b.id) :=
    (List.Perm.pairwise_iff (fun h h' => h h'.symm) (sortById_perm l)).mpr hids
  exact (List.Pairwise.and hs hne).imp
    (fun h => lt_of_le_of_ne h.1 (fun hd => h.2 (String.ext hd)))

/-- C1: for a duplicate group (items of one hash bucket) of size > 1 with
pairwise-distinct ids, the keeper chosen by `choose_keeper` is a member of
the group with maximal `height*width` pixel count (the `size` field), and
among the members tying on pixel count it has the lexicographically
smallest id. -/
theorem C1_choose_keeper_max_size_min_id (group : List Image) (k : Image)
    (_hhash : ∃ hv, ∀ im ∈ group, im.hash = hv)
    (_hlen : 1 < group.length)
    (hids : group.Pairwise (fun a b => a.id ≠ b.id))
    (hk : choose_keeper group = some k) :
    k ∈ group ∧ (∀ im ∈ group, im.size ≤ k.size) ∧
      (∀ im ∈ group, im.size = k.size → k.id.data ≤ im.id.data) := by
  have hperm := sortById_perm group
  have hlt := sortById_strict group hids
  rcases hse : sortById group with _ | ⟨x, xs⟩
  · exfalso
    have hnone : choose_keeper group = none := by rw [choose_keeper, hse]; rfl
    rw [hnone] at hk
    exact Option.noConfusion hk
  · have hsome : choose_keeper group = some (pyfoldmax Image.size x xs) := by
      rw [choose_keeper, hse]; rfl
    rw [hsome] at hk
    have hkx : k = pyfoldmax Image.size x xs := (Option.some.inj hk).symm
    rw [hse] at hperm hlt
    rcases pyfoldmax_spec Image.size xs x hlt with ⟨hm, hmax, htie⟩
    rw [← hkx] at hm hmax htie
    exact ⟨hperm.subset hm,
           fun im him => hmax im (hperm.mem_iff.mpr him),
           fun im him h => htie im (hperm.mem_iff.mpr him) h⟩

/-- C1 witness: in the concrete tie group `{A(100×100), B(200×50)}` (both
hash 5, both 10000 pixels) the keeper is `A`, the image with the smaller
id. -/
theorem C1_witness :
    imgA ∈ [imgA, imgB] ∧ (∀ im ∈ [imgA, imgB], im.size ≤ imgA.size) ∧
      (∀ im ∈ [imgA, imgB], im.size = imgA.size → imgA.id.data ≤ im.id.data) :=
  C1_choose_keeper_max_size_min_id [imgA, imgB] imgA ⟨5, by decide⟩ (by decide)
    (by decide) (by decide)

/-- On a list with pairwise-distinct ids containing `k`, filtering out the
id of `k` removes exactly `k`. -/
theorem filter_ne_id_eq_erase (k : Image) :
    ∀ l : List Image, l.Pairwise (fun a b => a.id ≠ b.id) → k ∈ l →
      l.filter (fun im => im.id != k.id) = l.erase k := by
  intro l
  induction l with
  | nil => intro _ h; cases h
  | cons x xs ih =>
      intro hp hm
      rcases List.pairwise_cons.mp hp with ⟨hx, hxs⟩
      by_cases hxk : x = k
      · subst hxk
        rw [List.erase_cons_head]
        have hall : ∀ im ∈ xs, (im.id != x.id) = true := by
          intro im him
          exact bne_iff_ne.mpr (fun h => hx im him h.symm)
        rw [List.filter_cons, if_neg (by simp), List.filter_eq_self.mpr hall]
      · have hkxs : k ∈ xs := by
          rcases List.mem_cons.mp hm with h | h
          · exact absurd h.symm hxk
          · exact h
        have hxid : x.id ≠ k.id := hx k hkxs
        rw [List.filter_cons, if_pos (bne_iff_ne.mpr hxid), ih hxs hkxs,
            List.erase_cons_tail (by simpa using hxk)]

/-- C3: for a hash bucket of duplicates (size > 1, pairwise-distinct ids)
with keeper `k`, per-group resolution keeps exactly the keeper: `k` is in
the group but never among the removed images, the removed images are a
permutation of the group with the keeper erased (so exactly one member
survives: any group member not removed is the keeper), and exactly
`|group| - 1` images are removed — never the whole bucket. -/
theorem C3_resolve_group_spares_keeper (group : List Image) (k : Image)
    (_hhash : ∃ hv, ∀ im ∈ group, im.hash = hv)
    (_hlen : 1 < group.length)
    (hids : group.Pairwise (fun a b => a.id ≠ b.id))
    (hk : choose_keeper group = some k) :
    k ∈ group ∧ k ∉ resolve_group group ∧
      (resolve_group group).Perm (group.erase k) ∧
      (∀ im ∈ group, im ∉ resolve_group group → im = k) ∧
      (resolve_group group).length + 1 = group.length := by
  have hres : resolve_group group =
      (sortById group).filter (fun im => im.id != k.id) := by
    rw [resolve_group, hk]
  have hperm := sortById_perm group
  have hne : (sortById group).Pairwise (fun a b => a.id ≠ b.id) :=
    (List.Perm.pairwise_iff (fun h h' => h h'.symm) hperm).mpr hids
  have hkg : k ∈ group := by
    have hlt := sortById_strict group hids
    rcases hse : sortById group with _ | ⟨x, xs⟩
    · exfalso
      have hnone : choose_keeper group = none := by rw [choose_keeper, hse]; rfl
      rw [hnone] at hk
      exact Option.noConfusion hk
    · have hsome : choose_keeper group = some (pyfoldmax Image.size x xs) := by
        rw [choose_keeper, hse]; rfl
      rw [hsome] at hk
      rw [hse] at hperm hlt
      rcases pyfoldmax_spec Image.size xs x hlt with ⟨hm, _, _⟩
      rw [← Option.some.inj hk]
      exact hperm.subset hm
  have hks : k ∈ sortById group := hperm.mem_iff.mpr hkg
  have hfe : resolve_group group = (sortById group).erase k := by
    rw [hres]
    exact filter_ne_id_eq_erase k (sortById group) hne hks
  have hrperm : (resolve_group group).Perm (group.erase k) := by
    rw [hfe]
    exact List.Perm.erase k hperm
  have hnodup : group.Nodup :=
    hids.imp (fun h he => h (congrArg Image.id he))
  have hkne : k ∉ resolve_group group := by
    rw [hres]
    intro hkf
    have := (List.mem_filter.mp hkf).2
    simp at this
  refine ⟨hkg, hkne, hrperm, ?_, ?_⟩
  · intro im him hnotrem
    by_contra hne'
    exact hnotrem (hrperm.mem_iff.mpr
      ((List.Nodup.mem_erase_iff hnodup).mpr ⟨hne', him⟩))
  · have h1 : (resolve_group group).length = (group.erase k).length :=
      hrperm.length_eq
    have h2 : (group.erase k).length = group.length - 1 :=
      List.length_erase_of_mem hkg
    have h3 : 0 < group.length := List.length_pos.mpr (fun he => by
      rw [he] at hkg; cases hkg)
    omega

/-- C3 witness: resolving the concrete bucket `{A, B}` (hash 5) with keeper
`A` removes exactly `B`. -/
theorem C3_witness :
    imgA ∈ [imgA, imgB] ∧ imgA ∉ resolve_group [imgA, imgB] ∧
      (resolve_group [imgA, imgB]).Perm ([imgA, imgB].erase imgA) ∧
      (∀ im ∈ [imgA, imgB], im ∉ resolve_group [imgA, imgB] → im = imgA) ∧
      (resolve_group [imgA, imgB]).length + 1 = [imgA, imgB].length :=
  C3_resolve_group_spares_keeper [imgA, imgB] imgA ⟨5, by decide⟩ (by decide)
    (by decide) (by decide)

/-- C2: the four-phase reconciliation is not idempotent.  Starting from
Pinterest = {A, B} (hash-colliding contents), disk = {A}, empty manifest:
the first run performs one download and no deletions, but the second run —
with no remote or local changes in between — performs one local deletion
and one remote deletion (it deletes the duplicate `B` downloaded by run 1,
which run 1's phase 3 never saw because `Container.sync` does not refresh
`self.images` after its downloads). -/
theorem C2_second_run_performs_deletions :
    (run_sync worldAB true).2 = ⟨1, 0, 0⟩ ∧
      (run_sync (run_sync worldAB true).1 true).2 = ⟨0, 1, 1⟩ ∧
      (run_sync (run_sync worldAB true).1 true).2 ≠ ⟨0, 0, 0⟩ :=
  ⟨by decide, by decide, by decide⟩

/-- C4: `manually_deleted` returns exactly the ids of the loaded snapshot
that are absent from the current scan — the set difference
`snapshot_ids - current_scan_ids` — and an empty snapshot always yields the
empty list, whatever the scan contains. -/
theorem C4_manually_deleted_is_set_difference :
    (∀ (old images : List Image) (x : String),
        x ∈ manually_deleted old images ↔
          x ∈ old.map (·.id) ∧ x ∉ images.map (·.id)) ∧
    (∀ images : List Image, manually_deleted [] images = []) := by
  constructor
  · intro old images x
    simp [manually_deleted, List.mem_filter]
    constructor
    · rintro ⟨e, ⟨he, hni⟩, rfl⟩
      exact ⟨⟨e, he, rfl⟩, hni⟩
    · rintro ⟨⟨e, he, rfl⟩, hni⟩
      exact ⟨e, ⟨he, hni⟩, rfl⟩
  · intro images
    rfl

/-- C5: at the failing input — a manifest file that exists but does not
parse as JSON — the Manifest.py loader raises (the `json.load` there has no
try/except), while the Board/Section loader of Container.py recovers with
an empty snapshot for both the corrupt and the missing file, as the claim
demands. -/
theorem C5_corrupt_manifest_loading :
    manifest_load_old .corrupt = Except.error "json.decoder.JSONDecodeError" ∧
      board_load_old .corrupt = [] ∧ board_load_old .missing = [] :=
  ⟨rfl, rfl, rfl⟩

/-- C7: when the network transfer of one pin is interrupted mid-write, the
truncated file at the computed destination path `download_dir/<id><ext>` no
longer exists after the handler runs, and the KeyboardInterrupt is re-raised
to the caller. -/
theorem C7_interrupted_download_leaves_no_artifact (fs : FS)
    (dldir : List String) (pinId ext : String)
    (h : dldir ++ [pinId ++ ext] ∉ fs.files) :
    (pin_download fs dldir pinId ext .interruptedMidWrite).2 =
        Except.error DownloadError.keyboardInterrupt ∧
      dldir ++ [pinId ++ ext] ∉
        (pin_download fs dldir pinId ext .interruptedMidWrite).1.files := by
  have herase : (fs.files ++ [dldir ++ [pinId ++ ext]]).erase
      (dldir ++ [pinId ++ ext]) = fs.files := by
    rw [List.erase_append_right _ h, List.erase_cons_head, List.append_nil]
  by_cases hc : dldir ∈ fs.dirs
  · exact ⟨by simp [pin_download, hc], by simp [pin_download, hc, herase]; exact h⟩
  · exact ⟨by simp [pin_download, hc], by simp [pin_download, hc, herase]; exact h⟩

/-- C7 witness: interrupting the download of pin `c` into `board1` on an
empty filesystem re-raises the interrupt and leaves no file at
`board1/c.jpg`. -/
theorem C7_witness :
    (pin_download ⟨[], []⟩ ["board1"] "c" ".jpg" .interruptedMidWrite).2 =
        Except.error DownloadError.keyboardInterrupt ∧
      ["board1"] ++ ["c" ++ ".jpg"] ∉
        (pin_download ⟨[], []⟩ ["board1"] "c" ".jpg" .interruptedMidWrite).1.files :=
  C7_interrupted_download_leaves_no_artifact ⟨[], []⟩ ["board1"] "c" ".jpg"
    (by decide)

/-- Unfolding: the cascade raises when the walk reaches the empty path. -/
theorem rmdir_cascade_nil (fs : FS) : rmdir_cascade fs [] = none := by
  simp [rmdir_cascade]

/-- Unfolding: one step of the cascade on a non-empty directory path. -/
theorem rmdir_cascade_cons (fs : FS) (c : String) (rest : List String) :
    rmdir_cascade fs (c :: rest) =
      if (listdir fs (c :: rest)).isEmpty then
        rmdir_cascade { fs with dirs := fs.dirs.erase (c :: rest) }
          (c :: rest).dropLast
      else some fs := by
  rw [rmdir_cascade]

/-- The cascade only removes directories and never touches files: a
successful walk returns a directory list that is a sublist of the input's
and the very same file list. -/
theorem rmdir_cascade_sub :
    ∀ (n : Nat) (d : List String), d.length ≤ n → ∀ (fs fs' : FS),
      rmdir_cascade fs d = some fs' →
      fs'.dirs.Sublist fs.dirs ∧ fs'.files = fs.files := by
  intro n
  induction n with
  | zero =>
      intro d hd fs fs' h
      rw [List.eq_nil_of_length_eq_zero (Nat.le_zero.mp hd),
        rmdir_cascade_nil] at h
      cases h
  | succ n ih =>
      intro d hd fs fs' h
      rcases d with _ | ⟨c, rest⟩
      · rw [rmdir_cascade_nil] at h
        cases h
      · rw [rmdir_cascade_cons] at h
        by_cases he : (listdir fs (c :: rest)).isEmpty
        · rw [if_pos he] at h
          have hlen : (c :: rest).dropLast.length ≤ n := by
            simp only [List.length_dropLast, List.length_cons] at hd ⊢
            omega
          rcases ih (c :: rest).dropLast hlen _ _ h with ⟨hsub, hfiles⟩
          exact ⟨hsub.trans (List.erase_sublist _ _), hfiles⟩
        · rw [if_neg he] at h
          cases h
          exact ⟨List.Sublist.refl _, rfl⟩

/-- C8 counterexample: deleting the only image of the section container
`b/s` removes the container's root directory `b/s` itself — the cascade has
no stop-before-the-container-root guard. -/
theorem C8_counterexample_root_removed :
    delete_image_fs fsSec ["b", "s", "f.jpg"] = some fsAfterDel ∧
      ["b", "s"] ∈ fsSec.dirs ∧ ["b", "s"] ∉ fsAfterDel.dirs := by
  refine ⟨?_, by decide, by decide⟩
  simp [delete_image_fs, rmdir_cascade, listdir, fsSec, fsAfterDel, List.erase]

/-- C8 amended: deleting an image removes its file and cascades over
now-empty parent directories with no guard at the container root — whenever
the file's own directory (the container root for board- and section-level
images) is empty after the file removal, that directory is removed too
(and the walk continues upward through empty ancestors). -/
theorem C8_delete_cascade_removes_empty_parent (fs : FS) (p : List String)
    (fs' : FS)
    (hnd : fs.dirs.Nodup)
    (hne : p.dropLast ≠ [])
    (hempty : listdir { fs with files := fs.files.erase p } p.dropLast = [])
    (hdel : delete_image_fs fs p = some fs') :
    fs'.files = fs.files.erase p ∧ p.dropLast ∉ fs'.dirs ∧
      fs'.dirs.Sublist fs.dirs := by
  unfold delete_image_fs at hdel
  rcases hp : p.dropLast with _ | ⟨c, rest⟩
  · exact absurd hp hne
  · rw [hp] at hdel hempty
    rw [rmdir_cascade_cons, if_pos (by rw [hempty]; rfl)] at hdel
    rcases rmdir_cascade_sub (c :: rest).dropLast.length _ le_rfl _ _ hdel with
      ⟨hsub, hfiles⟩
    refine ⟨hfiles, ?_, hsub.trans (List.erase_sublist _ _)⟩
    intro hmem
    have := (List.Nodup.mem_erase_iff hnd).mp (hsub.subset hmem)
    exact this.1 rfl

/-- C8 witness: instantiating the amended cascade theorem on the concrete
section container `b/s` whose only image is deleted. -/
theorem C8_witness :
    fsAfterDel.files = fsSec.files.erase ["b", "s", "f.jpg"] ∧
      ["b", "s", "f.jpg"].dropLast ∉ fsAfterDel.dirs ∧
      fsAfterDel.dirs.Sublist fsSec.dirs :=
  C8_delete_cascade_removes_empty_parent fsSec ["b", "s", "f.jpg"] fsAfterDel
    (by decide) (by decide) (by decide)
    (by simp [delete_image_fs, rmdir_cascade, listdir, fsSec, fsAfterDel,
          List.erase])

/-- C6 counterexample: the manifest persisted for the one-image set `{A}` is
a JSON array of entry objects, not a JSON object mapping the item id to its
entry — `Container.save_manifest` builds a Python list and `json.dump`s
it. -/
theorem C6_counterexample_manifest_is_array :
    save_manifest [imgA] ≠ Json.obj [(imgA.id, Image.to_json imgA)] ∧
      (save_manifest [imgA]).isObj = false ∧
      (save_manifest [imgA]).isArr = true :=
  ⟨fun h => Json.noConfusion h, rfl, rfl⟩

/-- C6 amended: for every non-empty local-item set, persisting the manifest
and loading it back reproduces an equivalent snapshot — one entry per item,
with the same id, board, section, path, hash, height, width,
size = height*width and 3-element color array — but the persisted value is
a JSON array of per-item objects, not an object keyed by id. -/
theorem C6_manifest_roundtrip (imgs : List Image)
    (hne : imgs ≠ [])
    (hsz : ∀ im ∈ imgs, im.size = im.height * im.width) :
    (save_manifest imgs).isArr = true ∧
      ∃ es, load_manifest (save_manifest imgs) = some es ∧ es ≠ [] ∧
        es.length = imgs.length ∧
        ∀ im ∈ imgs, ∃ e ∈ es,
          e.getField "id" = some (.str im.id) ∧
          e.getField "board" = some (.str im.board) ∧
          e.getField "section" = some (.str im.sect) ∧
          e.getField "path" = some (.str (pathString im.path)) ∧
          e.getField "hash" = some (.num im.hash) ∧
          e.getField "height" = some (.num im.height) ∧
          e.getField "width" = some (.num im.width) ∧
          e.getField "size" = some (.num (im.height * im.width)) ∧
          e.getField "color" =
            some (.arr [.num im.color.1, .num im.color.2.1, .num im.color.2.2]) := by
  refine ⟨rfl, imgs.map Image.to_json, rfl, by simpa using hne,
    List.length_map _ _, ?_⟩
  intro im him
  refine ⟨Image.to_json im, List.mem_map_of_mem _ him,
    rfl, rfl, rfl, rfl, rfl, rfl, rfl, ?_, rfl⟩
  have hfield : (Image.to_json im).getField "size" = some (.num im.size) := rfl
  rw [hfield, hsz im him, Nat.cast_mul]

/-- C6 witness: the round-trip theorem instantiated on the concrete
one-image set `{A}`. -/
theorem C6_witness :
    (save_manifest [imgA]).isArr = true ∧
      ∃ es, load_manifest (save_manifest [imgA]) = some es ∧ es ≠ [] ∧
        es.length = [imgA].length ∧
        ∀ im ∈ [imgA], ∃ e ∈ es,
          e.getField "id" = some (.str im.id) ∧
          e.getField "board" = some (.str im.board) ∧
          e.getField "section" = some (.str im.sect) ∧
          e.getField "path" = some (.str (pathString im.path)) ∧
          e.getField "hash" = some (.num im.hash) ∧
          e.getField "height" = some (.num im.height) ∧
          e.getField "width" = some (.num im.width) ∧
          e.getField "size" = some (.num (im.height * im.width)) ∧
          e.getField "color" =
            some (.arr [.num im.color.1, .num im.color.2.1, .num im.color.2.2]) :=
  C6_manifest_roundtrip [imgA] (by simp) (by decide)

/-- Python `split` never returns an empty list of pieces. -/
theorem pySplitDot_ne_nil : ∀ cs : List Char, pySplitDot cs ≠ []
  | [] => by simp [pySplitDot]
  | c :: rest => by
      rcases h : pySplitDot rest with _ | ⟨p, ps⟩
      · exact absurd h (pySplitDot_ne_nil rest)
      · by_cases hc : c = '.'
        · simp [pySplitDot, h, hc]
        · simp [pySplitDot, h, hc]

/-- Splitting a dot-free list yields the single piece that is the whole
list. -/
theorem pySplitDot_no_dot : ∀ cs : List Char, '.' ∉ cs → pySplitDot cs = [cs]
  | [] => fun _ => rfl
  | c :: rest => fun h => by
      have hr : '.' ∉ rest := fun hin => h (List.mem_cons_of_mem c hin)
      have hc : c ≠ '.' := fun e => h (List.mem_cons.mpr (Or.inl e.symm))
      simp [pySplitDot, pySplitDot_no_dot rest hr, hc]

/-- Splitting on dots yields one piece more than the number of dots. -/
theorem pySplitDot_length :
    ∀ cs : List Char, (pySplitDot cs).length = cs.count '.' + 1
  | [] => by simp [pySplitDot]
  | c :: rest => by
      have ih := pySplitDot_length rest
      rcases h : pySplitDot rest with _ | ⟨p, ps⟩
      · exact absurd h (pySplitDot_ne_nil rest)
      · rw [h] at ih
        by_cases hc : c = '.'
        · simp only [pySplitDot, h, if_pos hc, List.count_cons]
          simp only [List.length_cons] at ih ⊢
          simp [hc]
          omega
        · simp only [pySplitDot, h, if_neg hc, List.count_cons]
          simp only [List.length_cons] at ih ⊢
          simp [hc]
          omega

/-- The part before the last dot carries one dot fewer than the whole
list. -/
theorem beforeLastDot_count :
    ∀ cs : List Char, '.' ∈ cs →
      (beforeLastDot cs).count '.' + 1 = cs.count '.'
  | [] => fun h => by cases h
  | c :: rest => fun h => by
      by_cases hr : '.' ∈ rest
      · have ih := beforeLastDot_count rest hr
        simp only [beforeLastDot, if_pos hr, List.count_cons]
        omega
      · have hc : c = '.' := by
          rcases List.mem_cons.mp h with h' | h'
          · exact h'.symm
          · exact absurd h' hr
        simp only [beforeLastDot, if_neg hr, List.count_cons]
        simp [hc, List.count_eq_zero.mpr hr]

/-- For a filename containing a dot, the scanned-image id is the part
before the last dot with every remaining dot filtered out — Python's
`''.join(split('.')[:-1])`. -/
theorem scan_image_id_eq_filter :
    ∀ cs : List Char, '.' ∈ cs →
      scan_image_id cs = (beforeLastDot cs).filter (fun ch => ch != '.')
  | [] => fun h => by cases h
  | c :: rest => fun h => by
      by_cases hc : c = '.'
      · subst hc
        by_cases hr : '.' ∈ rest
        · have ih := scan_image_id_eq_filter rest hr
          rcases hsp : pySplitDot rest with _ | ⟨p, ps⟩
          · exact absurd hsp (pySplitDot_ne_nil rest)
          · have hl : scan_image_id ('.' :: rest) = scan_image_id rest := by
              simp [scan_image_id, pySplitDot, hsp, List.dropLast_cons₂]
            have hbl : beforeLastDot ('.' :: rest) = '.' :: beforeLastDot rest := by
              simp [beforeLastDot, hr]
            rw [hl, hbl, List.filter_cons, if_neg (by simp), ih]
        · have hbl : beforeLastDot ('.' :: rest) = [] := by
            simp [beforeLastDot, hr]
          have hl : scan_image_id ('.' :: rest) = [] := by
            simp [scan_image_id, pySplitDot, pySplitDot_no_dot rest hr,
              List.dropLast_cons₂]
          rw [hl, hbl]
          rfl
      · have hr : '.' ∈ rest := by
          rcases List.mem_cons.mp h with h' | h'
          · exact absurd h'.symm hc
          · exact h'
        have ih := scan_image_id_eq_filter rest hr
        rcases hsp : pySplitDot rest with _ | ⟨p, ps⟩
        · exact absurd hsp (pySplitDot_ne_nil rest)
        · have hlen := pySplitDot_length rest
          rw [hsp] at hlen
          have hcnt : 0 < rest.count '.' := List.count_pos_iff.mpr hr
          have hps : ps ≠ [] := by
            intro he
            rw [he] at hlen
            simp at hlen
            omega
          rcases hq : ps with _ | ⟨q, qs⟩
          · exact absurd hq hps
          · have hl : scan_image_id (c :: rest) = c :: scan_image_id rest := by
              simp [scan_image_id, pySplitDot, hsp, hc, hq, List.dropLast_cons₂]
            have hbl : beforeLastDot (c :: rest) = c :: beforeLastDot rest := by
              simp [beforeLastDot, hr]
            rw [hl, hbl, List.filter_cons, if_pos (bne_iff_ne.mpr hc), ih]

/-- C9: for every filename containing a dot, the id of a scanned LocalItem
is the filename stem (everything before the last dot) with all dots
removed; it coincides with the stem itself — which is what the
orphan-cleanup path parses — exactly when the filename contains a single
dot, so the two derivations disagree on every stem that still contains a
dot. -/
theorem C9_scan_id_vs_orphan_id (cs : List Char) (h : '.' ∈ cs) :
    scan_image_id cs = (orphan_image_id cs).filter (fun ch => ch != '.') ∧
      (scan_image_id cs = orphan_image_id cs ↔ cs.count '.' = 1) := by
  have hbl : orphan_image_id cs = beforeLastDot cs := if_pos h
  have h1 := scan_image_id_eq_filter cs h
  refine ⟨by rw [hbl]; exact h1, ?_, ?_⟩
  · intro heq
    rw [hbl] at heq
    rw [h1] at heq
    have hnotin : '.' ∉ beforeLastDot cs := by
      intro hin
      have := List.filter_eq_self.mp heq _ hin
      simp at this
    have hcount := beforeLastDot_count cs h
    rw [List.count_eq_zero.mpr hnotin] at hcount
    omega
  · intro hcnt
    have hcount := beforeLastDot_count cs h
    have hnotin : '.' ∉ beforeLastDot cs := by
      apply List.count_eq_zero.mp
      omega
    rw [hbl, h1]
    apply List.filter_eq_self.mpr
    intro a ha
    exact bne_iff_ne.mpr (fun e => hnotin (e ▸ ha))

/-- C9 witness: for the filename `a.b.jpg` the scanned id is `ab` — the
stem `a.b` with its dot removed — the orphan-cleanup id is the stem `a.b`,
and the two derivations disagree (the filename has two dots). -/
theorem C9_witness :
    scan_image_id "a.b.jpg".data = "ab".data ∧
      orphan_image_id "a.b.jpg".data = "a.b".data ∧
      scan_image_id "a.b.jpg".data =
        (orphan_image_id "a.b.jpg".data).filter (fun ch => ch != '.') ∧
      (scan_image_id "a.b.jpg".data = orphan_image_id "a.b.jpg".data ↔
        "a.b.jpg".data.count '.' = 1) :=
  ⟨by decide, by decide, C9_scan_id_vs_orphan_id "a.b.jpg".data (by decide)⟩

/-- C10: a LocalItem built from a two-component path `board/filename` has
its section field set to the filename itself; and no constructed LocalItem
ever serializes a null section — the manifest's section field is always the
string stored by the constructor. -/
theorem C10_section_is_filename (b f : String) (d : Decoded) (im : Image)
    (h : Image.ofFile [b, f] d = some im) :
    im.sect = f ∧
      (Image.to_json im).getField "section" = some (Json.str f) ∧
      (∀ (comps : List String) (d2 : Decoded) (im2 : Image),
        Image.ofFile comps d2 = some im2 →
        (Image.to_json im2).getField "section" ≠ some Json.null) := by
  have he := Option.some.inj h
  subst he
  refine ⟨rfl, rfl, ?_⟩
  intro comps d2 im2 h2
  rcases comps with _ | ⟨b2, rest⟩
  · cases h2
  rcases rest with _ | ⟨s2, rest2⟩
  · cases h2
  · have he2 := Option.some.inj h2
    subst he2
    intro hnull
    simp [Image.to_json, Json.getField] at hnull

/-- C10 witness: scanning `board1/a.jpg` (decoded as hash 5, 100×100,
color (1,2,3)) yields exactly `imgA`, whose section field is the filename
`a.jpg` and whose serialized section is a string, not null. -/
theorem C10_witness :
    imgA.sect = "a.jpg" ∧
      (Image.to_json imgA).getField "section" = some (Json.str "a.jpg") ∧
      (∀ (comps : List String) (d2 : Decoded) (im2 : Image),
        Image.ofFile comps d2 = some im2 →
        (Image.to_json im2).getField "section" ≠ some Json.null) :=
  C10_section_is_filename "board1" "a.jpg" ⟨5, 100, 100, (1, 2, 3)⟩ imgA
    (by decide)

end PinSync

